import Mathlib

/-!
Verification of the multi-core HW-broadcast program builder
(`tt_dnn/op_library/bcast/multi_core_hw/bcast_op_multi_core_hw.cpp`).

The development shallowly embeds the construction of the Program
(circular buffers, kernel instances, per-core runtime arguments) and the
address-patching callback, and proves the work-split / tiling / patching
properties stated in the specification.

Machine integers of the source (`uint32_t`) are modelled as `Nat`; the
shapes and tile counts involved stay far below `2^32`, so wrap-around is
not modelled.
-/

/-- Tile height constant, `TILE_HEIGHT` from `tt_metal/common/constants.hpp`
(not among the sources here; the spec fixes tiles as constant-size blocks,
and the standard value 32 is used). -/
def TILE_HEIGHT : Nat := 32

/-- Tile width constant, `TILE_WIDTH` from `tt_metal/common/constants.hpp`. -/
def TILE_WIDTH : Nat := 32

/-- Tiles have `TILE_HW = TILE_HEIGHT * TILE_WIDTH` elements. -/
def TILE_HW : Nat := TILE_HEIGHT * TILE_WIDTH

/-- Result of the work splitter: the number of active cores, the number
`ng1` of group-1 cores (the first `ng1` active cores in row-major order),
and the per-core tile counts of the two groups.  Group 2 consists of the
active cores with row-major index in `[ng1, numCores)`. -/
structure SplitResult where
  numCores : Nat
  ng1 : Nat
  tiles1 : Nat
  tiles2 : Nat
deriving Repr, DecidableEq

/-- Modelled from the spec: `split_work_to_cores` (declared in
`tt_dnn/op_library/work_split.hpp`, whose body is not among the sources).
Per the spec's Work Splitter contract: `num_active_cores =
min(cols*rows, total_tiles)`, `base = total_tiles / num_active_cores`,
`remainder = total_tiles % num_active_cores`; group 1 is the first
`remainder` cores in row-major order with `base + 1` tiles per core, and
group 2 is the remaining active cores with `base` tiles per core.
(`Nat` division and modulus by `0` yield `0` and the dividend.) -/
def split_work_to_cores (gridX gridY total : Nat) : SplitResult :=
  let n := min (gridX * gridY) total
  ⟨n, total % n, total / n + 1, total / n⟩

/-- Row-major enumeration of cores: index `i` is the coordinate
`(i / num_cores_y, i % num_cores_y)` (source line 158). -/
def coreOf (rows i : Nat) : Nat × Nat := (i / rows, i % rows)

/-- Linear row-major index of a coordinate. -/
def coordIndex (rows : Nat) (c : Nat × Nat) : Nat := c.1 * rows + c.2

/-- Membership of a coordinate in the set of cores whose row-major index
lies in `[lo, hi)` — the shape of the `CoreRangeSet`s produced by the
work splitter (`core_coord_in_core_ranges` on such a set). -/
def inIdxRange (rows lo hi : Nat) (c : Nat × Nat) : Bool :=
  decide (c.2 < rows) && decide (lo ≤ coordIndex rows c) &&
    decide (coordIndex rows c < hi)

/-- Membership in `core_group_1`: the first `ng1` active cores. -/
def group1Mem (rows : Nat) (sr : SplitResult) (c : Nat × Nat) : Bool :=
  inIdxRange rows 0 sr.ng1 c

/-- Membership in `core_group_2`: active cores `[ng1, numCores)`. -/
def group2Mem (rows : Nat) (sr : SplitResult) (c : Nat × Nat) : Bool :=
  inIdxRange rows sr.ng1 sr.numCores c

/-- The per-core tile count chosen by the runtime-argument loop (source
lines 159-166): group 1 membership is tested first, then group 2; a core
in neither group hits `TT_ASSERT(false, ...)`, modelled as `none`. -/
def tilesFor (rows : Nat) (sr : SplitResult) (c : Nat × Nat) : Option Nat :=
  if group1Mem rows sr c then some sr.tiles1
  else if group2Mem rows sr c then some sr.tiles2
  else none

/-- The fifteen reader runtime arguments of one core (source lines
171-187): slots 0-14 in order. -/
def readerRtArgs (aAddr bAddr nbt ntpc bnc1 offset htwt : Nat) : List Nat :=
  [aAddr, 0, 0, ntpc, bAddr, 0, 0, nbt, ntpc, 1, 1, ntpc, bnc1, offset, htwt]

/-- The three writer runtime arguments of one core (source lines
192-196). -/
def writerRtArgs (outAddr ntpc offset : Nat) : List Nat :=
  [outAddr, ntpc, offset]

/-- All inputs of `bcast_multi_core_hw` that the embedded construction
consumes: the two operand shapes, the three buffer addresses, the device
grid, the tile byte size of the element format, the format tag and the
buffer residency flags. -/
structure BcastParams where
  N : Nat
  C : Nat
  H : Nat
  W : Nat
  bN : Nat
  bC : Nat
  bH : Nat
  bW : Nat
  aAddr : Nat
  bAddr : Nat
  outAddr : Nat
  gridX : Nat
  gridY : Nat
  singleTileSize : Nat
  dataFormat : Nat
  src0IsDram : Bool
  src1IsDram : Bool
  dstIsDram : Bool
deriving Repr

/-- `num_tensor_tiles = NC*Ht*Wt` with `NC = N*C`, `Ht = H/TILE_HEIGHT`,
`Wt = W/TILE_WIDTH` (source lines 25-31). -/
def numTensorTiles (p : BcastParams) : Nat :=
  p.N * p.C * (p.H / TILE_HEIGHT) * (p.W / TILE_WIDTH)

/-- `num_btensor_tiles = NC*bH*bW / TILE_HW` — note `NC = N*C` comes from
operand A's shape (source line 32). -/
def numBtensorTiles (p : BcastParams) : Nat :=
  p.N * p.C * p.bH * p.bW / TILE_HW

/-- `bnc1 = (bN*bC == 1) ? 1 : 0` (source line 34). -/
def bnc1Flag (p : BcastParams) : Nat :=
  if p.bN * p.bC = 1 then 1 else 0

/-- One circular buffer (tile queue) created by `CreateCircularBuffers`:
its queue index, the row-major index range of the cores it spans, its
capacity in tiles, byte size and data format. -/
structure CBConfig where
  index : Nat
  rangeLo : Nat
  rangeHi : Nat
  numTiles : Nat
  byteSize : Nat
  dataFormat : Nat
deriving Repr, DecidableEq

/-- Role of a kernel instance. -/
inductive KernelRole
  | reader
  | writer
  | compute
deriving Repr, DecidableEq

/-- One kernel instance: role, the row-major index range of the cores it
spans, and its compile-time arguments. -/
structure KernelInst where
  role : KernelRole
  rangeLo : Nat
  rangeHi : Nat
  compileArgs : List Nat
deriving Repr, DecidableEq

/-- The built Program: the active-core count and grid height captured by
the patch callback (source lines 204-205), the created circular buffers
and kernel instances, and the per-core runtime-argument stores of the
reader and writer kernels. -/
@[ext]
structure Program where
  numCores : Nat
  numCoresY : Nat
  cbs : List CBConfig
  kernels : List KernelInst
  readerArgs : Nat × Nat → List Nat
  writerArgs : Nat × Nat → List Nat

/-- `SetRuntimeArgs`: point update of a per-core argument store. -/
def setArgs (f : Nat × Nat → List Nat) (c : Nat × Nat) (v : List Nat) :
    Nat × Nat → List Nat :=
  fun d => if d = c then v else f d

/-- State carried by the runtime-argument loop: the reader and writer
argument stores and `num_tiles_read`. -/
structure RtState where
  rd : Nat × Nat → List Nat
  wr : Nat × Nat → List Nat
  tilesRead : Nat

/-- The runtime-argument loop (source lines 157-199) after `k`
iterations: iteration `i` resolves core `(i / rows, i % rows)`, picks its
group's tile count (fatal — `none` — if in neither group), stores the
fifteen reader and three writer arguments, and advances
`num_tiles_read`. -/
def rtLoop (p : BcastParams) (rows : Nat) (sr : SplitResult) : Nat → Option RtState
  | 0 => some ⟨fun _ => [], fun _ => [], 0⟩
  | k + 1 => do
    let st ← rtLoop p rows sr k
    let core := coreOf rows k
    let ntpc ← tilesFor rows sr core
    pure ⟨setArgs st.rd core
            (readerRtArgs p.aAddr p.bAddr (numBtensorTiles p) ntpc (bnc1Flag p)
              st.tilesRead ((p.H / TILE_HEIGHT) * (p.W / TILE_WIDTH))),
          setArgs st.wr core (writerRtArgs p.outAddr ntpc st.tilesRead),
          st.tilesRead + ntpc⟩

/-- The work split performed by the construction (source line 48):
`split_work_to_cores(compute_and_storage_grid_size, num_tensor_tiles)`. -/
def splitOf (p : BcastParams) : SplitResult :=
  split_work_to_cores p.gridX p.gridY (numTensorTiles p)

/-- The three `CreateCircularBuffers` calls (source lines 58-88): queue
indices 0, 1 and 16, each over `all_cores` (the active cores), capacity
2 tiles and byte size `2 * single_tile_size`. -/
def cbsOf (p : BcastParams) : List CBConfig :=
  [⟨0, 0, (splitOf p).numCores, 2, 2 * p.singleTileSize, p.dataFormat⟩,
   ⟨1, 0, (splitOf p).numCores, 2, 2 * p.singleTileSize, p.dataFormat⟩,
   ⟨16, 0, (splitOf p).numCores, 2, 2 * p.singleTileSize, p.dataFormat⟩]

/-- The kernel instances created by the construction (source lines
92-155): reader and writer data-movement kernels over `all_cores` with
their compile-time arguments, the group-1 compute kernel created
unconditionally, and the group-2 compute kernel created only when
`core_group_2` is non-empty. -/
def kernelsOf (p : BcastParams) : List KernelInst :=
  [⟨.reader, 0, (splitOf p).numCores,
      [p.dataFormat, p.src0IsDram.toNat, p.src1IsDram.toNat]⟩,
   ⟨.writer, 0, (splitOf p).numCores, [16, p.dataFormat, p.dstIsDram.toNat]⟩,
   ⟨.compute, 0, (splitOf p).ng1, [1, 1, (splitOf p).tiles1]⟩] ++
  (if (splitOf p).ng1 < (splitOf p).numCores then
      [⟨.compute, (splitOf p).ng1, (splitOf p).numCores, [1, 1, (splitOf p).tiles2]⟩]
    else [])

/-- The Program construction (source lines 18-199): split the work,
create the three circular buffers and the kernels, then run the
runtime-argument loop over all active cores (fatal — `none` — if the
loop ever finds a core in neither work group). -/
def bcast_multi_core_hw (p : BcastParams) : Option Program :=
  match rtLoop p p.gridY (splitOf p) (splitOf p).numCores with
  | none => none
  | some st => some ⟨(splitOf p).numCores, p.gridY, cbsOf p, kernelsOf p, st.rd, st.wr⟩

/-- One iteration of the patch callback's loop body (source lines
218-233): read the current runtime arguments of core
`(i / rows, i % rows)`, overwrite reader slots 0 and 4 with the new
operand addresses and writer slot 0 with the new output address, and
store them back. -/
def patchStep (rows newA newB newOut i : Nat)
    (st : (Nat × Nat → List Nat) × (Nat × Nat → List Nat)) :
    (Nat × Nat → List Nat) × (Nat × Nat → List Nat) :=
  let core := coreOf rows i
  (setArgs st.1 core (((st.1 core).set 0 newA).set 4 newB),
   setArgs st.2 core ((st.2 core).set 0 newOut))

/-- The patch callback's loop after `k` iterations. -/
def patchLoop (rows newA newB newOut : Nat)
    (st : (Nat × Nat → List Nat) × (Nat × Nat → List Nat)) :
    Nat → (Nat × Nat → List Nat) × (Nat × Nat → List Nat)
  | 0 => st
  | k + 1 => patchStep rows newA newB newOut k (patchLoop rows newA newB newOut st k)

/-- `override_runtime_args_callback` (source lines 201-234): run the
patch loop over the captured `num_cores` active cores using the captured
`num_cores_y`; only the runtime-argument stores change. -/
def patchProgram (q : Program) (newA newB newOut : Nat) : Program :=
  let st := patchLoop q.numCoresY newA newB newOut (q.readerArgs, q.writerArgs) q.numCores
  { q with readerArgs := st.1, writerArgs := st.2 }

/-- Per-core tile count by row-major index: `tiles1` for the first `ng1`
cores, `tiles2` for the rest. -/
def coreTiles (sr : SplitResult) (i : Nat) : Nat :=
  if i < sr.ng1 then sr.tiles1 else sr.tiles2

/-- Running tile offset before core `i` (the value of `num_tiles_read`
at the start of iteration `i`). -/
def coreOffset (sr : SplitResult) : Nat → Nat
  | 0 => 0
  | k + 1 => coreOffset sr k + coreTiles sr k

/-- Start of the half-open output-tile window of active core `i`, as
emitted by the loop: writer runtime argument slot 2. -/
def windowStart (q : Program) (i : Nat) : Nat :=
  (q.writerArgs (coreOf q.numCoresY i)).getD 2 0

/-- Length of the output-tile window of active core `i`, as emitted by
the loop: writer runtime argument slot 1. -/
def windowLen (q : Program) (i : Nat) : Nat :=
  (q.writerArgs (coreOf q.numCoresY i)).getD 1 0

/-- Decidable coverage test: some active core's window contains tile
`t`. -/
def coversB (q : Program) (t : Nat) : Bool :=
  (List.range q.numCores).any fun i =>
    decide (windowStart q i ≤ t) && decide (t < windowStart q i + windowLen q i)

/-- The program built for `p`, with a trivial default for the (never
occurring) fatal case; used to instantiate theorems at concrete inputs. -/
def progOf (p : BcastParams) : Program :=
  (bcast_multi_core_hw p).getD ⟨0, 0, [], [], fun _ => [], fun _ => []⟩

/-! ### Coordinate and group-membership lemmas -/

theorem coordIndex_coreOf (rows i : Nat) : coordIndex rows (coreOf rows i) = i := by
  simp only [coordIndex, coreOf]
  exact Nat.div_add_mod' i rows

theorem coreOf_inj {rows i j : Nat} (h : coreOf rows i = coreOf rows j) : i = j := by
  have := congrArg (coordIndex rows) h
  simpa [coordIndex_coreOf] using this

theorem inIdxRange_coreOf {rows : Nat} (hr : 0 < rows) (lo hi i : Nat) :
    inIdxRange rows lo hi (coreOf rows i) =
      (decide (lo ≤ i) && decide (i < hi)) := by
  simp only [inIdxRange, coordIndex_coreOf]
  have hm : (coreOf rows i).2 < rows := Nat.mod_lt _ hr
  simp [hm]

theorem tilesFor_coreOf {rows : Nat} (sr : SplitResult) (hr : 0 < rows)
    {i : Nat} (hi : i < sr.numCores) :
    tilesFor rows sr (coreOf rows i) = some (coreTiles sr i) := by
  simp only [tilesFor, group1Mem, group2Mem, inIdxRange_coreOf hr, coreTiles]
  by_cases h1 : i < sr.ng1
  · simp [h1]
  · simp [h1, Nat.le_of_not_lt h1, hi]

/-! ### Runtime-argument loop characterization -/

theorem setArgs_same (f : Nat × Nat → List Nat) (c : Nat × Nat) (v : List Nat) :
    setArgs f c v c = v := by
  simp [setArgs]

theorem setArgs_other (f : Nat × Nat → List Nat) (c d : Nat × Nat) (v : List Nat)
    (h : d ≠ c) : setArgs f c v d = f d := by
  simp [setArgs, h]

theorem rtLoop_spec (p : BcastParams) (rows : Nat) (sr : SplitResult) (hr : 0 < rows)
    (k : Nat) (hk : k ≤ sr.numCores) :
    ∃ st : RtState, rtLoop p rows sr k = some st ∧
      st.tilesRead = coreOffset sr k ∧
      (∀ i, i < k →
        st.rd (coreOf rows i) =
          readerRtArgs p.aAddr p.bAddr (numBtensorTiles p) (coreTiles sr i) (bnc1Flag p)
            (coreOffset sr i) ((p.H / TILE_HEIGHT) * (p.W / TILE_WIDTH)) ∧
        st.wr (coreOf rows i) = writerRtArgs p.outAddr (coreTiles sr i) (coreOffset sr i)) ∧
      (∀ c : Nat × Nat, (∀ i, i < k → c ≠ coreOf rows i) → st.rd c = [] ∧ st.wr c = []) := by
  induction k with
  | zero =>
    exact ⟨⟨fun _ => [], fun _ => [], 0⟩, rfl, rfl, fun i hi => absurd hi (Nat.not_lt_zero i),
      fun c _ => ⟨rfl, rfl⟩⟩
  | succ k ih =>
    obtain ⟨st, hst, htr, hset, hout⟩ := ih (Nat.le_of_succ_le hk)
    have hkn : k < sr.numCores := hk
    have htf := tilesFor_coreOf sr hr hkn
    refine ⟨⟨setArgs st.rd (coreOf rows k)
        (readerRtArgs p.aAddr p.bAddr (numBtensorTiles p) (coreTiles sr k) (bnc1Flag p)
          st.tilesRead ((p.H / TILE_HEIGHT) * (p.W / TILE_WIDTH))),
      setArgs st.wr (coreOf rows k) (writerRtArgs p.outAddr (coreTiles sr k) st.tilesRead),
      st.tilesRead + coreTiles sr k⟩, ?_, ?_, ?_, ?_⟩
    · simp [rtLoop, hst, htf]
    · simp only [coreOffset, htr]
    · intro i hi
      dsimp only
      rcases Nat.lt_succ_iff_lt_or_eq.mp hi with hlt | heq
      · have hne : coreOf rows i ≠ coreOf rows k := by
          intro h
          exact absurd (coreOf_inj h) (Nat.ne_of_lt hlt)
        rw [setArgs_other _ _ _ _ hne, setArgs_other _ _ _ _ hne]
        exact hset i hlt
      · subst heq
        rw [setArgs_same, setArgs_same, htr]
        exact ⟨rfl, rfl⟩
    · intro c hc
      dsimp only
      have hne : c ≠ coreOf rows k := hc k (Nat.lt_succ_self k)
      rw [setArgs_other _ _ _ _ hne, setArgs_other _ _ _ _ hne]
      exact hout c fun i hi => hc i (Nat.lt_succ_of_lt hi)

/-! ### Program-level characterization -/

theorem gridY_pos_of_cores (p : BcastParams) (h : 0 < (splitOf p).numCores) :
    0 < p.gridY := by
  have hle : (splitOf p).numCores ≤ p.gridX * p.gridY :=
    Nat.min_le_left (p.gridX * p.gridY) (numTensorTiles p)
  rcases Nat.eq_zero_or_pos p.gridY with hy | hy
  · rw [hy, Nat.mul_zero] at hle
    omega
  · exact hy

theorem bcast_spec (p : BcastParams) :
    ∃ q : Program, bcast_multi_core_hw p = some q ∧
      q.numCores = (splitOf p).numCores ∧ q.numCoresY = p.gridY ∧
      q.cbs = cbsOf p ∧ q.kernels = kernelsOf p ∧
      (∀ i, i < (splitOf p).numCores →
        q.readerArgs (coreOf p.gridY i) =
          readerRtArgs p.aAddr p.bAddr (numBtensorTiles p) (coreTiles (splitOf p) i)
            (bnc1Flag p) (coreOffset (splitOf p) i)
            ((p.H / TILE_HEIGHT) * (p.W / TILE_WIDTH)) ∧
        q.writerArgs (coreOf p.gridY i) =
          writerRtArgs p.outAddr (coreTiles (splitOf p) i) (coreOffset (splitOf p) i)) ∧
      (∀ c : Nat × Nat, (∀ i, i < (splitOf p).numCores → c ≠ coreOf p.gridY i) →
        q.readerArgs c = [] ∧ q.writerArgs c = []) := by
  have hex : ∃ st : RtState,
      rtLoop p p.gridY (splitOf p) (splitOf p).numCores = some st ∧
      st.tilesRead = coreOffset (splitOf p) (splitOf p).numCores ∧
      (∀ i, i < (splitOf p).numCores →
        st.rd (coreOf p.gridY i) =
          readerRtArgs p.aAddr p.bAddr (numBtensorTiles p) (coreTiles (splitOf p) i)
            (bnc1Flag p) (coreOffset (splitOf p) i)
            ((p.H / TILE_HEIGHT) * (p.W / TILE_WIDTH)) ∧
        st.wr (coreOf p.gridY i) =
          writerRtArgs p.outAddr (coreTiles (splitOf p) i) (coreOffset (splitOf p) i)) ∧
      (∀ c : Nat × Nat, (∀ i, i < (splitOf p).numCores → c ≠ coreOf p.gridY i) →
        st.rd c = [] ∧ st.wr c = []) := by
    rcases Nat.eq_zero_or_pos (splitOf p).numCores with h0 | hpos
    · rw [h0]
      exact ⟨⟨fun _ => [], fun _ => [], 0⟩, rfl, rfl,
        fun i hi => absurd hi (Nat.not_lt_zero i),
        fun c _ => ⟨rfl, rfl⟩⟩
    · exact rtLoop_spec p p.gridY (splitOf p) (gridY_pos_of_cores p hpos) _ le_rfl
  obtain ⟨st, hrt, htr, hset, hout⟩ := hex
  refine ⟨⟨(splitOf p).numCores, p.gridY, cbsOf p, kernelsOf p, st.rd, st.wr⟩,
    ?_, rfl, rfl, rfl, rfl, ?_, ?_⟩
  · unfold bcast_multi_core_hw
    rw [hrt]
  · exact hset
  · exact hout

/-! ### Offset arithmetic -/

theorem coreOffset_eq (sr : SplitResult) (h : sr.tiles1 = sr.tiles2 + 1) (k : Nat) :
    coreOffset sr k = k * sr.tiles2 + min k sr.ng1 := by
  induction k with
  | zero => simp [coreOffset]
  | succ k ih =>
    simp only [coreOffset, coreTiles, ih, Nat.succ_mul]
    by_cases hk : k < sr.ng1
    · rw [if_pos hk, h, Nat.min_eq_left (Nat.le_of_lt hk), Nat.min_eq_left hk]
      simp only [Nat.succ_eq_add_one]
      ring
    · rw [if_neg hk, Nat.min_eq_right (Nat.le_of_not_lt hk),
        Nat.min_eq_right (Nat.le_succ_of_le (Nat.le_of_not_lt hk))]
      ring

theorem split_tiles1_eq (gX gY total : Nat) :
    (split_work_to_cores gX gY total).tiles1 = (split_work_to_cores gX gY total).tiles2 + 1 := rfl

theorem coreOffset_split_total (gX gY total : Nat) (h : 0 < gX * gY) :
    coreOffset (split_work_to_cores gX gY total)
      (split_work_to_cores gX gY total).numCores = total := by
  by_cases h0 : total = 0
  · subst h0
    simp [split_work_to_cores, coreOffset]
  · have hn : 0 < (split_work_to_cores gX gY total).numCores := by
      have : 0 < min (gX * gY) total := lt_min h (Nat.pos_of_ne_zero h0)
      exact this
    rw [coreOffset_eq _ (split_tiles1_eq gX gY total)]
    have hrem : total % (split_work_to_cores gX gY total).numCores <
        (split_work_to_cores gX gY total).numCores := Nat.mod_lt _ hn
    have hng : (split_work_to_cores gX gY total).ng1 =
        total % (split_work_to_cores gX gY total).numCores := rfl
    have ht2 : (split_work_to_cores gX gY total).tiles2 =
        total / (split_work_to_cores gX gY total).numCores := rfl
    rw [hng, ht2, Nat.min_eq_right (Nat.le_of_lt hrem)]
    exact Nat.div_add_mod total (split_work_to_cores gX gY total).numCores

theorem coreOffset_mono (sr : SplitResult) {i j : Nat} (h : i ≤ j) :
    coreOffset sr i ≤ coreOffset sr j := by
  induction h with
  | refl => exact Nat.le_refl _
  | step h ih => exact Nat.le_trans ih (Nat.le_add_right _ _)

theorem coreOffset_cover (sr : SplitResult) (t k : Nat) (h : t < coreOffset sr k) :
    ∃ i, i < k ∧ coreOffset sr i ≤ t ∧ t < coreOffset sr i + coreTiles sr i := by
  induction k with
  | zero => simp [coreOffset] at h
  | succ k ih =>
    by_cases hk : t < coreOffset sr k
    · obtain ⟨i, hi, h1, h2⟩ := ih hk
      exact ⟨i, Nat.lt_succ_of_lt hi, h1, h2⟩
    · refine ⟨k, Nat.lt_succ_self k, Nat.le_of_not_lt hk, ?_⟩
      simpa [coreOffset] using h

/-! ### Patch-callback characterization -/

theorem set04_collapse (l : List Nat) (a b : Nat) :
    ((((l.set 0 a).set 4 b).set 0 a).set 4 b) = (l.set 0 a).set 4 b := by
  rw [List.set_comm b a (l.set 0 a) (by decide), List.set_set, List.set_set]

theorem patchLoop_fst_out (rows a b o : Nat) (rd wr : Nat × Nat → List Nat)
    (k : Nat) (c : Nat × Nat) (hc : ∀ i, i < k → c ≠ coreOf rows i) :
    (patchLoop rows a b o (rd, wr) k).1 c = rd c := by
  revert hc
  induction k with
  | zero => intro hc; rfl
  | succ k ih =>
    intro hc
    have hne : c ≠ coreOf rows k := hc k (Nat.lt_succ_self k)
    show (patchStep rows a b o k (patchLoop rows a b o (rd, wr) k)).1 c = rd c
    simp only [patchStep]
    rw [setArgs_other _ _ _ _ hne]
    exact ih fun i hi => hc i (Nat.lt_succ_of_lt hi)

theorem patchLoop_snd_out (rows a b o : Nat) (rd wr : Nat × Nat → List Nat)
    (k : Nat) (c : Nat × Nat) (hc : ∀ i, i < k → c ≠ coreOf rows i) :
    (patchLoop rows a b o (rd, wr) k).2 c = wr c := by
  revert hc
  induction k with
  | zero => intro hc; rfl
  | succ k ih =>
    intro hc
    have hne : c ≠ coreOf rows k := hc k (Nat.lt_succ_self k)
    show (patchStep rows a b o k (patchLoop rows a b o (rd, wr) k)).2 c = wr c
    simp only [patchStep]
    rw [setArgs_other _ _ _ _ hne]
    exact ih fun i hi => hc i (Nat.lt_succ_of_lt hi)

theorem patchLoop_fst_mem (rows a b o : Nat) (rd wr : Nat × Nat → List Nat)
    (k : Nat) (c : Nat × Nat) (hc : ∃ i, i < k ∧ c = coreOf rows i) :
    (patchLoop rows a b o (rd, wr) k).1 c = ((rd c).set 0 a).set 4 b := by
  revert hc
  induction k with
  | zero =>
    intro hc
    obtain ⟨i, hi, _⟩ := hc
    exact absurd hi (Nat.not_lt_zero i)
  | succ k ih =>
    intro hc
    show (patchStep rows a b o k (patchLoop rows a b o (rd, wr) k)).1 c = _
    simp only [patchStep]
    by_cases hck : c = coreOf rows k
    · rw [← hck, setArgs_same]
      by_cases hm : ∃ i, i < k ∧ c = coreOf rows i
      · rw [ih hm, set04_collapse]
      · rw [patchLoop_fst_out rows a b o rd wr k c]
        intro i hi hci
        exact hm ⟨i, hi, hci⟩
    · rw [setArgs_other _ _ _ _ hck]
      apply ih
      obtain ⟨i, hi, hci⟩ := hc
      rcases Nat.lt_succ_iff_lt_or_eq.mp hi with hlt | heq
      · exact ⟨i, hlt, hci⟩
      · subst heq
        exact absurd hci hck

theorem patchLoop_snd_mem (rows a b o : Nat) (rd wr : Nat × Nat → List Nat)
    (k : Nat) (c : Nat × Nat) (hc : ∃ i, i < k ∧ c = coreOf rows i) :
    (patchLoop rows a b o (rd, wr) k).2 c = (wr c).set 0 o := by
  revert hc
  induction k with
  | zero =>
    intro hc
    obtain ⟨i, hi, _⟩ := hc
    exact absurd hi (Nat.not_lt_zero i)
  | succ k ih =>
    intro hc
    show (patchStep rows a b o k (patchLoop rows a b o (rd, wr) k)).2 c = _
    simp only [patchStep]
    by_cases hck : c = coreOf rows k
    · rw [← hck, setArgs_same]
      by_cases hm : ∃ i, i < k ∧ c = coreOf rows i
      · rw [ih hm, List.set_set]
      · rw [patchLoop_snd_out rows a b o rd wr k c]
        intro i hi hci
        exact hm ⟨i, hi, hci⟩
    · rw [setArgs_other _ _ _ _ hck]
      apply ih
      obtain ⟨i, hi, hci⟩ := hc
      rcases Nat.lt_succ_iff_lt_or_eq.mp hi with hlt | heq
      · exact ⟨i, hlt, hci⟩
      · subst heq
        exact absurd hci hck

theorem patchProgram_reader_mem (q : Program) (a b o : Nat) (c : Nat × Nat)
    (hc : ∃ i, i < q.numCores ∧ c = coreOf q.numCoresY i) :
    (patchProgram q a b o).readerArgs c = ((q.readerArgs c).set 0 a).set 4 b :=
  patchLoop_fst_mem q.numCoresY a b o q.readerArgs q.writerArgs q.numCores c hc

theorem patchProgram_reader_out (q : Program) (a b o : Nat) (c : Nat × Nat)
    (hc : ∀ i, i < q.numCores → c ≠ coreOf q.numCoresY i) :
    (patchProgram q a b o).readerArgs c = q.readerArgs c :=
  patchLoop_fst_out q.numCoresY a b o q.readerArgs q.writerArgs q.numCores c hc

theorem patchProgram_writer_mem (q : Program) (a b o : Nat) (c : Nat × Nat)
    (hc : ∃ i, i < q.numCores ∧ c = coreOf q.numCoresY i) :
    (patchProgram q a b o).writerArgs c = (q.writerArgs c).set 0 o :=
  patchLoop_snd_mem q.numCoresY a b o q.readerArgs q.writerArgs q.numCores c hc

theorem patchProgram_writer_out (q : Program) (a b o : Nat) (c : Nat × Nat)
    (hc : ∀ i, i < q.numCores → c ≠ coreOf q.numCoresY i) :
    (patchProgram q a b o).writerArgs c = q.writerArgs c :=
  patchLoop_snd_out q.numCoresY a b o q.readerArgs q.writerArgs q.numCores c hc

/-! ### Claim C9 -/

/-- Claim C9: for every core index `i < num_cores` visited by the
runtime-argument loop, the coordinate `(i / rows, i % rows)` is a member
of `core_group_1` or of `core_group_2`, so the fatal
`Core not in specified core ranges` branch (modelled as `tilesFor = none`)
is unreachable. -/
theorem runtimeLoop_core_in_groups (gX gY total i : Nat)
    (hi : i < (split_work_to_cores gX gY total).numCores) :
    (group1Mem gY (split_work_to_cores gX gY total) (coreOf gY i) = true ∨
     group2Mem gY (split_work_to_cores gX gY total) (coreOf gY i) = true) ∧
    tilesFor gY (split_work_to_cores gX gY total) (coreOf gY i) ≠ none := by
  have hy : 0 < gY := by
    rcases Nat.eq_zero_or_pos gY with h0 | h
    · subst h0
      have hle : (split_work_to_cores gX 0 total).numCores ≤ gX * 0 :=
        Nat.min_le_left _ _
      rw [Nat.mul_zero] at hle
      omega
    · exact h
  constructor
  · rw [group1Mem, group2Mem, inIdxRange_coreOf hy, inIdxRange_coreOf hy]
    by_cases h1 : i < (split_work_to_cores gX gY total).ng1
    · left
      simp [h1]
    · right
      simp [Nat.le_of_not_lt h1, hi]
  · rw [tilesFor_coreOf _ hy hi]
    simp

/-- Witness for C9 at grid `(2,1)`, 5 tiles, core index 0. -/
theorem runtimeLoop_core_in_groups_witness :
    (group1Mem 1 (split_work_to_cores 2 1 5) (coreOf 1 0) = true ∨
     group2Mem 1 (split_work_to_cores 2 1 5) (coreOf 1 0) = true) ∧
    tilesFor 1 (split_work_to_cores 2 1 5) (coreOf 1 0) ≠ none :=
  runtimeLoop_core_in_groups 2 1 5 0 (by decide)

/-! ### Claim C2 -/

/-- Counterexample to claim C2 as stated: on the degenerate grid
`(0, 1)` with `total_tiles = 1` the split produces `min(0*1, 1) = 0`
active cores, and the sum of `tiles_per_core` over the (zero) assigned
cores is `0`, not `total_tiles = 1`. -/
theorem work_split_coverage_cex :
    ¬ ((split_work_to_cores 0 1 1).numCores = min (0 * 1) 1 ∧
       coreOffset (split_work_to_cores 0 1 1)
         (split_work_to_cores 0 1 1).numCores = 1) := by
  decide

/-- Claim C2 (amended with `0 < cols*rows`): on any non-empty grid the
split produces exactly `min(cols*rows, total_tiles)` active cores — an
index `i` names an active core exactly when its coordinate lies in
group 1 or group 2 — and the per-core tile counts over the active cores
sum to `total_tiles`. -/
theorem work_split_coverage (gX gY total : Nat) (hgrid : 0 < gX * gY) :
    (split_work_to_cores gX gY total).numCores = min (gX * gY) total ∧
    (∀ i : Nat, i < (split_work_to_cores gX gY total).numCores ↔
      (group1Mem gY (split_work_to_cores gX gY total) (coreOf gY i) ||
       group2Mem gY (split_work_to_cores gX gY total) (coreOf gY i)) = true) ∧
    (∑ i ∈ Finset.range (split_work_to_cores gX gY total).numCores,
        coreTiles (split_work_to_cores gX gY total) i) = total := by
  have hy : 0 < gY := by
    rcases Nat.eq_zero_or_pos gY with h0 | h
    · rw [h0, Nat.mul_zero] at hgrid
      omega
    · exact h
  refine ⟨rfl, ?_, ?_⟩
  · intro i
    rw [group1Mem, group2Mem, inIdxRange_coreOf hy, inIdxRange_coreOf hy]
    constructor
    · intro hi
      by_cases h1 : i < (split_work_to_cores gX gY total).ng1
      · simp [h1]
      · simp [Nat.le_of_not_lt h1, hi]
    · intro hmem
      simp only [Bool.or_eq_true, Bool.and_eq_true, decide_eq_true_eq] at hmem
      have hng_le : (split_work_to_cores gX gY total).ng1 ≤
          (split_work_to_cores gX gY total).numCores := by
        rcases Nat.eq_zero_or_pos (split_work_to_cores gX gY total).numCores with
          h0 | hpos
        · have htot : total = 0 := by
            have hmin : min (gX * gY) total = 0 := h0
            rcases Nat.min_eq_zero_iff.mp hmin with hh | hh
            · omega
            · exact hh
          show total % (split_work_to_cores gX gY total).numCores ≤ _
          rw [htot]
          simp
        · exact Nat.le_of_lt (Nat.mod_lt _ hpos)
      rcases hmem with ⟨_, h1⟩ | ⟨_, h2⟩
      · omega
      · exact h2
  · have hsum : ∀ k : Nat,
        (∑ i ∈ Finset.range k, coreTiles (split_work_to_cores gX gY total) i) =
          coreOffset (split_work_to_cores gX gY total) k := by
      intro k
      induction k with
      | zero => rfl
      | succ k ih =>
        rw [Finset.sum_range_succ, ih]
        rfl
    rw [hsum, coreOffset_split_total gX gY total hgrid]

/-- Witness for C2 at grid `(2,1)`, 5 tiles: 2 active cores summing to
5 tiles. -/
theorem work_split_coverage_witness :
    (split_work_to_cores 2 1 5).numCores = min (2 * 1) 5 ∧
    (∀ i : Nat, i < (split_work_to_cores 2 1 5).numCores ↔
      (group1Mem 1 (split_work_to_cores 2 1 5) (coreOf 1 i) ||
       group2Mem 1 (split_work_to_cores 2 1 5) (coreOf 1 i)) = true) ∧
    (∑ i ∈ Finset.range (split_work_to_cores 2 1 5).numCores,
        coreTiles (split_work_to_cores 2 1 5) i) = 5 :=
  work_split_coverage 2 1 5 (by decide)

/-! ### Claim C3 -/

/-- Claim C3: when the division leaves a remainder `R > 0`, group 1 is
exactly the first `R` active cores in row-major order, each receiving
`base + 1` tiles, every group-2 core receives `base` tiles
(`base = total / num_active_cores`), and the two per-core tile counts
differ by exactly 1 (hence at most 1). -/
theorem work_split_balance (gX gY total : Nat)
    (hrem : 0 < total % (split_work_to_cores gX gY total).numCores) :
    (split_work_to_cores gX gY total).ng1 =
      total % (split_work_to_cores gX gY total).numCores ∧
    (split_work_to_cores gX gY total).tiles1 =
      total / (split_work_to_cores gX gY total).numCores + 1 ∧
    (split_work_to_cores gX gY total).tiles2 =
      total / (split_work_to_cores gX gY total).numCores ∧
    (∀ i, i < (split_work_to_cores gX gY total).numCores →
      tilesFor gY (split_work_to_cores gX gY total) (coreOf gY i) =
        some (if i < (split_work_to_cores gX gY total).ng1
          then total / (split_work_to_cores gX gY total).numCores + 1
          else total / (split_work_to_cores gX gY total).numCores)) ∧
    (split_work_to_cores gX gY total).tiles1 -
      (split_work_to_cores gX gY total).tiles2 = 1 := by
  refine ⟨rfl, rfl, rfl, ?_, ?_⟩
  · intro i hi
    have hy : 0 < gY := by
      rcases Nat.eq_zero_or_pos gY with h0 | h
      · subst h0
        have hle : (split_work_to_cores gX 0 total).numCores ≤ gX * 0 :=
          Nat.min_le_left _ _
        rw [Nat.mul_zero] at hle
        omega
      · exact h
    rw [tilesFor_coreOf _ hy hi]
    rfl
  · show total / (split_work_to_cores gX gY total).numCores + 1 -
      total / (split_work_to_cores gX gY total).numCores = 1
    omega

/-- Witness for C3 at grid `(2,1)`, 5 tiles: remainder 1, group 1 gets
3 tiles per core, group 2 gets 2. -/
theorem work_split_balance_witness :
    (split_work_to_cores 2 1 5).ng1 = 5 % (split_work_to_cores 2 1 5).numCores ∧
    (split_work_to_cores 2 1 5).tiles1 = 5 / (split_work_to_cores 2 1 5).numCores + 1 ∧
    (split_work_to_cores 2 1 5).tiles2 = 5 / (split_work_to_cores 2 1 5).numCores ∧
    (∀ i, i < (split_work_to_cores 2 1 5).numCores →
      tilesFor 1 (split_work_to_cores 2 1 5) (coreOf 1 i) =
        some (if i < (split_work_to_cores 2 1 5).ng1
          then 5 / (split_work_to_cores 2 1 5).numCores + 1
          else 5 / (split_work_to_cores 2 1 5).numCores)) ∧
    (split_work_to_cores 2 1 5).tiles1 - (split_work_to_cores 2 1 5).tiles2 = 1 :=
  work_split_balance 2 1 5 (by decide)

/-! ### Claim C1 -/

/-- Example parameters for C1's counterexample: a degenerate `(0,1)`
grid with one output tile. -/
def tilingCexParams : BcastParams :=
  ⟨1, 1, 32, 32, 1, 1, 32, 32, 0, 0, 0, 0, 1, 1024, 0, false, false, false⟩

/-- Counterexample to claim C1 as stated: with grid `(0,1)` and
`total_tiles = 1` the loop visits zero cores, so tile 0 of `[0, 1)` lies
in no emitted window — the windows do not cover `[0, total_tiles)`. -/
theorem tiling_partition_cex :
    (bcast_multi_core_hw tilingCexParams).map (fun q => coversB q 0) = some false ∧
    numTensorTiles tilingCexParams = 1 :=
  ⟨rfl, rfl⟩

/-- Claim C1 (amended with `0 < cols*rows`): on any non-empty grid the
per-core half-open windows emitted by the runtime-argument loop (writer
runtime-argument slots 2 and 1: start offset and length) exactly
partition `[0, total_tiles)`: a tile index is below `total_tiles` exactly
when some active core's window contains it, and the windows of distinct
active cores are disjoint (each earlier window ends no later than a
later window starts). -/
theorem tiling_partition (p : BcastParams) (hgrid : 0 < p.gridX * p.gridY) :
    ∃ q : Program, bcast_multi_core_hw p = some q ∧
      (∀ t : Nat, t < numTensorTiles p ↔ coversB q t = true) ∧
      (∀ i j : Nat, i < j → j < q.numCores →
        windowStart q i + windowLen q i ≤ windowStart q j) := by
  obtain ⟨q, hq, hnc, hny, hcbs, hker, hargs, hout⟩ := bcast_spec p
  have hwin : ∀ i, i < q.numCores →
      windowStart q i = coreOffset (splitOf p) i ∧
      windowLen q i = coreTiles (splitOf p) i := by
    intro i hi
    have hi' : i < (splitOf p).numCores := hnc ▸ hi
    have h := (hargs i hi').2
    rw [windowStart, windowLen, hny, h, writerRtArgs]
    exact ⟨rfl, rfl⟩
  have htot : coreOffset (splitOf p) (splitOf p).numCores = numTensorTiles p :=
    coreOffset_split_total p.gridX p.gridY (numTensorTiles p) hgrid
  have hcov : ∀ t : Nat, coversB q t = true ↔
      ∃ i, i < q.numCores ∧ windowStart q i ≤ t ∧
        t < windowStart q i + windowLen q i := by
    intro t
    simp [coversB, List.any_eq_true, List.mem_range, Bool.and_eq_true,
      decide_eq_true_eq]
  refine ⟨q, hq, ?_, ?_⟩
  · intro t
    constructor
    · intro ht
      obtain ⟨i, hi, h1, h2⟩ :=
        coreOffset_cover (splitOf p) t (splitOf p).numCores (by rw [htot]; exact ht)
      have hiq : i < q.numCores := by rw [hnc]; exact hi
      rw [hcov]
      refine ⟨i, hiq, ?_, ?_⟩
      · rw [(hwin i hiq).1]
        exact h1
      · rw [(hwin i hiq).1, (hwin i hiq).2]
        exact h2
    · intro ht
      rw [hcov] at ht
      obtain ⟨i, hi, h1, h2⟩ := ht
      have hi' : i < (splitOf p).numCores := hnc ▸ hi
      rw [(hwin i hi).1, (hwin i hi).2] at h2
      have hle : coreOffset (splitOf p) (i + 1) ≤
          coreOffset (splitOf p) (splitOf p).numCores := coreOffset_mono _ hi'
      have h3 : t < coreOffset (splitOf p) (i + 1) := h2
      omega
  · intro i j hij hj
    have hi : i < q.numCores := Nat.lt_trans hij hj
    rw [(hwin i hi).1, (hwin i hi).2, (hwin j hj).1]
    show coreOffset (splitOf p) (i + 1) ≤ coreOffset (splitOf p) j
    exact coreOffset_mono _ hij

/-- Example parameters for C1's witness: grid `(2,1)`, 5 output
tiles. -/
def tilingExParams : BcastParams :=
  ⟨5, 1, 32, 32, 1, 1, 32, 32, 11, 22, 33, 2, 1, 2048, 0, true, true, true⟩

/-- Witness for C1 at grid `(2,1)` with 5 tiles. -/
theorem tiling_partition_witness :
    ∃ q : Program, bcast_multi_core_hw tilingExParams = some q ∧
      (∀ t : Nat, t < numTensorTiles tilingExParams ↔ coversB q t = true) ∧
      (∀ i j : Nat, i < j → j < q.numCores →
        windowStart q i + windowLen q i ≤ windowStart q j) :=
  tiling_partition tilingExParams (by decide)

/-! ### Claim C4 -/

/-- Claim C4: the patch callback changes only the address-bearing
runtime-argument slots — reader slots 0 and 4 and writer slot 0 — of
each active core: every other runtime-argument slot of every core is
unchanged, cores outside the active set keep their stores verbatim, and
the circular buffers (queue capacities) and kernel instances (compile-
time arguments) of the Program are untouched. -/
theorem patch_isolation (q : Program) (a b o : Nat) :
    (patchProgram q a b o).cbs = q.cbs ∧
    (patchProgram q a b o).kernels = q.kernels ∧
    (patchProgram q a b o).numCores = q.numCores ∧
    (patchProgram q a b o).numCoresY = q.numCoresY ∧
    (∀ c : Nat × Nat, ∀ j : Nat, j ≠ 0 → j ≠ 4 →
      ((patchProgram q a b o).readerArgs c)[j]? = (q.readerArgs c)[j]?) ∧
    (∀ c : Nat × Nat, ∀ j : Nat, j ≠ 0 →
      ((patchProgram q a b o).writerArgs c)[j]? = (q.writerArgs c)[j]?) ∧
    (∀ c : Nat × Nat, (∀ i, i < q.numCores → c ≠ coreOf q.numCoresY i) →
      (patchProgram q a b o).readerArgs c = q.readerArgs c ∧
      (patchProgram q a b o).writerArgs c = q.writerArgs c) ∧
    (∀ i, i < q.numCores →
      (patchProgram q a b o).readerArgs (coreOf q.numCoresY i) =
        ((q.readerArgs (coreOf q.numCoresY i)).set 0 a).set 4 b ∧
      (patchProgram q a b o).writerArgs (coreOf q.numCoresY i) =
        (q.writerArgs (coreOf q.numCoresY i)).set 0 o) := by
  refine ⟨rfl, rfl, rfl, rfl, ?_, ?_, ?_, ?_⟩
  · intro c j hj0 hj4
    by_cases hm : ∃ i, i < q.numCores ∧ c = coreOf q.numCoresY i
    · rw [patchProgram_reader_mem q a b o c hm,
        List.getElem?_set_ne (by omega), List.getElem?_set_ne (by omega)]
    · rw [patchProgram_reader_out q a b o c fun i hi hci => hm ⟨i, hi, hci⟩]
  · intro c j hj0
    by_cases hm : ∃ i, i < q.numCores ∧ c = coreOf q.numCoresY i
    · rw [patchProgram_writer_mem q a b o c hm,
        List.getElem?_set_ne (by omega)]
    · rw [patchProgram_writer_out q a b o c fun i hi hci => hm ⟨i, hi, hci⟩]
  · intro c hc
    exact ⟨patchProgram_reader_out q a b o c hc, patchProgram_writer_out q a b o c hc⟩
  · intro i hi
    exact ⟨patchProgram_reader_mem q a b o _ ⟨i, hi, rfl⟩,
      patchProgram_writer_mem q a b o _ ⟨i, hi, rfl⟩⟩

/-- Example program for C4's witness: one active core at `(0,0)`. -/
def patchExProgram : Program :=
  ⟨1, 1, [⟨0, 0, 1, 2, 4096, 0⟩], [⟨.reader, 0, 1, [0, 1, 1]⟩],
    fun _ => [3, 4, 5, 6, 7], fun _ => [8, 9]⟩

/-- Witness for C4: patching a concrete one-core program with new
addresses 100/200/300 keeps slot 1 of both stores and the circular
buffers and kernels. -/
theorem patch_isolation_witness :
    (patchProgram patchExProgram 100 200 300).cbs = patchExProgram.cbs ∧
    (patchProgram patchExProgram 100 200 300).kernels = patchExProgram.kernels ∧
    ((patchProgram patchExProgram 100 200 300).readerArgs (0, 0))[1]? =
      (patchExProgram.readerArgs (0, 0))[1]? ∧
    ((patchProgram patchExProgram 100 200 300).writerArgs (0, 0))[1]? =
      (patchExProgram.writerArgs (0, 0))[1]? ∧
    (patchProgram patchExProgram 100 200 300).readerArgs
        (coreOf patchExProgram.numCoresY 0) =
      ((patchExProgram.readerArgs (coreOf patchExProgram.numCoresY 0)).set 0 100).set
        4 200 := by
  have h := patch_isolation patchExProgram 100 200 300
  exact ⟨h.1, h.2.1, h.2.2.2.2.1 (0, 0) 1 (by decide) (by decide),
    h.2.2.2.2.2.1 (0, 0) 1 (by decide), (h.2.2.2.2.2.2.2 0 (by decide)).1⟩

/-! ### Claim C5 -/

/-- Claim C5: the patch callback is idempotent — patching twice with the
same new buffer addresses leaves the Program (in particular every
kernel's runtime arguments) exactly as after patching once. -/
theorem patch_idempotent (q : Program) (a b o : Nat) :
    patchProgram (patchProgram q a b o) a b o = patchProgram q a b o := by
  have hr : (patchProgram (patchProgram q a b o) a b o).readerArgs =
      (patchProgram q a b o).readerArgs := by
    funext c
    by_cases hm : ∃ i, i < q.numCores ∧ c = coreOf q.numCoresY i
    · rw [patchProgram_reader_mem (patchProgram q a b o) a b o c hm,
        patchProgram_reader_mem q a b o c hm, set04_collapse]
    · have hc : ∀ i, i < q.numCores → c ≠ coreOf q.numCoresY i :=
        fun i hi hci => hm ⟨i, hi, hci⟩
      rw [patchProgram_reader_out (patchProgram q a b o) a b o c hc,
        patchProgram_reader_out q a b o c hc]
  have hw : (patchProgram (patchProgram q a b o) a b o).writerArgs =
      (patchProgram q a b o).writerArgs := by
    funext c
    by_cases hm : ∃ i, i < q.numCores ∧ c = coreOf q.numCoresY i
    · rw [patchProgram_writer_mem (patchProgram q a b o) a b o c hm,
        patchProgram_writer_mem q a b o c hm, List.set_set]
    · have hc : ∀ i, i < q.numCores → c ≠ coreOf q.numCoresY i :=
        fun i hi hci => hm ⟨i, hi, hci⟩
      rw [patchProgram_writer_out (patchProgram q a b o) a b o c hc,
        patchProgram_writer_out q a b o c hc]
  exact Program.ext rfl rfl rfl rfl hr hw

/-! ### Claim C6 -/

/-- Example parameters with `total_tiles = 0` (height 0). -/
def zeroTilesParams : BcastParams :=
  ⟨1, 1, 0, 32, 1, 1, 32, 32, 0, 0, 0, 2, 2, 1024, 0, false, false, false⟩

/-- Counterexample to claim C6 as stated: with `total_tiles = 0` the
construction still creates three kernel instances (reader, writer and
the group-1 compute kernel are created unconditionally, source lines
101-135), so the Program does not have zero kernels bound. -/
theorem zero_tiles_cex :
    (bcast_multi_core_hw zeroTilesParams).map (fun q => q.kernels.length) =
      some 3 ∧
    numTensorTiles zeroTilesParams = 0 :=
  ⟨rfl, rfl⟩

/-- Claim C6 (amended): when `total_tiles = 0` construction succeeds and
zero cores are active, and no per-core runtime arguments are set; the
reader, writer and group-1 compute kernel instances are nevertheless
created (only the group-2 compute kernel is omitted), each spanning the
empty core range. -/
theorem zero_tiles_construction (p : BcastParams) (h : numTensorTiles p = 0) :
    ∃ q : Program, bcast_multi_core_hw p = some q ∧
      q.numCores = 0 ∧
      q.kernels.length = 3 ∧
      (∀ k ∈ q.kernels, k.rangeLo = 0 ∧ k.rangeHi = 0) ∧
      (∀ c : Nat × Nat, q.readerArgs c = [] ∧ q.writerArgs c = []) := by
  obtain ⟨q, hq, hnc, hny, hcbs, hker, hargs, hout⟩ := bcast_spec p
  have hzero : (splitOf p).numCores = 0 := by
    show min (p.gridX * p.gridY) (numTensorTiles p) = 0
    rw [h]
    exact Nat.min_zero _
  have hng : (splitOf p).ng1 = 0 := by
    show numTensorTiles p % (splitOf p).numCores = 0
    rw [h]
    exact Nat.zero_mod _
  refine ⟨q, hq, by rw [hnc, hzero], ?_, ?_, ?_⟩
  · rw [hker]
    simp [kernelsOf, hzero, hng]
  · intro k hk
    rw [hker] at hk
    simp only [kernelsOf, hzero, hng, lt_self_iff_false, if_false,
      List.append_nil, List.mem_cons, List.not_mem_nil, or_false] at hk
    rcases hk with rfl | rfl | rfl
    · exact ⟨rfl, rfl⟩
    · exact ⟨rfl, rfl⟩
    · exact ⟨rfl, rfl⟩
  · intro c
    exact hout c fun i hi => absurd (hzero ▸ hi) (Nat.not_lt_zero i)

/-- Witness for C6 at the concrete zero-tile parameters. -/
theorem zero_tiles_construction_witness :
    ∃ q : Program, bcast_multi_core_hw zeroTilesParams = some q ∧
      q.numCores = 0 ∧
      q.kernels.length = 3 ∧
      (∀ k ∈ q.kernels, k.rangeLo = 0 ∧ k.rangeHi = 0) ∧
      (∀ c : Nat × Nat, q.readerArgs c = [] ∧ q.writerArgs c = []) :=
  zero_tiles_construction zeroTilesParams (by decide)

/-! ### Claim C7 -/

/-- Claim C7: reader runtime-argument slot 12 (`operand_B_is_scalar_like`)
is 1 for every active core exactly when operand B's batch-times-channel
extent `bN*bC` equals 1, and 0 for every active core otherwise. -/
theorem scalar_like_flag (p : BcastParams) (q : Program)
    (hq : bcast_multi_core_hw p = some q) (i : Nat) (hi : i < q.numCores) :
    (q.readerArgs (coreOf p.gridY i))[12]? =
      some (if p.bN * p.bC = 1 then 1 else 0) := by
  obtain ⟨q', hq', hnc, hny, _, _, hargs, _⟩ := bcast_spec p
  rw [hq'] at hq
  obtain rfl : q' = q := Option.some.inj hq
  have hi' : i < (splitOf p).numCores := hnc ▸ hi
  rw [(hargs i hi').1, readerRtArgs]
  rfl

/-- Example parameters with `bN*bC = 1` for C7's witness. -/
def scalarExParams : BcastParams :=
  ⟨1, 2, 32, 64, 1, 1, 32, 32, 5, 6, 7, 2, 2, 1024, 0, true, false, true⟩

/-- Witness for C7: the built program at concrete parameters with
`bN*bC = 1` carries flag 1 in reader slot 12 of core 0. -/
theorem scalar_like_flag_witness :
    ((progOf scalarExParams).readerArgs (coreOf scalarExParams.gridY 0))[12]? =
      some (if scalarExParams.bN * scalarExParams.bC = 1 then 1 else 0) :=
  scalar_like_flag scalarExParams (progOf scalarExParams) rfl 0 (by decide)

/-! ### Claim C8 -/

/-- Claim C8: every construction allocates exactly three tile queues, at
the pairwise-distinct indices 0, 1 and 16, one per logical channel
(operand A, operand B, result), each spanning the full active-core range
`[0, num_cores)` with capacity 2 tiles and byte size
`2 * single_tile_size`. -/
theorem queue_allocation (p : BcastParams) :
    ∃ q : Program, bcast_multi_core_hw p = some q ∧
      q.cbs = [⟨0, 0, q.numCores, 2, 2 * p.singleTileSize, p.dataFormat⟩,
               ⟨1, 0, q.numCores, 2, 2 * p.singleTileSize, p.dataFormat⟩,
               ⟨16, 0, q.numCores, 2, 2 * p.singleTileSize, p.dataFormat⟩] ∧
      (q.cbs.map CBConfig.index).Nodup := by
  obtain ⟨q, hq, hnc, _, hcbs, _, _, _⟩ := bcast_spec p
  refine ⟨q, hq, ?_, ?_⟩
  · rw [hcbs, hnc]
    rfl
  · rw [hcbs]
    show ([0, 1, 16] : List Nat).Nodup
    decide

/-! ### Claim C10 -/

/-- Example parameters for C10's counterexample: operand B has
batch-channel extent 3 but tiny (16 by 16) height and width. -/
def btensorCexParams : BcastParams :=
  ⟨1, 1, 32, 32, 1, 3, 16, 16, 0, 0, 0, 1, 1, 1024, 0, false, false, false⟩

/-- Counterexample to claim C10 as stated: with `bN*bC = 3 ≠ 1 = N*C`
but `bH*bW = 256 < TILE_HW`, integer division truncates both
`N*C*bH*bW / TILE_HW` and `bN*bC*bH*bW / TILE_HW` to 0, so slot 7's
value does not differ from operand B's actual tile count even though
`bN*bC ≠ N*C`. -/
theorem btensor_slot_cex :
    btensorCexParams.bN * btensorCexParams.bC ≠
      btensorCexParams.N * btensorCexParams.C ∧
    numBtensorTiles btensorCexParams =
      btensorCexParams.bN * btensorCexParams.bC * btensorCexParams.bH *
        btensorCexParams.bW / TILE_HW := by
  decide

/-- Claim C10 (amended): reader slot 7 equals
`(N*C * bH * bW) / TILE_HW` — computed from operand A's `N*C`, the same
value on every active core — and it differs from operand B's actual tile
count `(bN*bC * bH * bW) / TILE_HW` whenever `bN*bC ≠ N*C`, provided
`bH*bW` is a positive multiple of `TILE_HW` (that is, operand B's
height/width extent is tile-aligned and non-empty). -/
theorem btensor_slot (p : BcastParams) (q : Program)
    (hq : bcast_multi_core_hw p = some q) (i : Nat) (hi : i < q.numCores) :
    (q.readerArgs (coreOf p.gridY i))[7]? =
      some (p.N * p.C * p.bH * p.bW / TILE_HW) ∧
    (TILE_HW ∣ p.bH * p.bW → 0 < p.bH * p.bW → p.bN * p.bC ≠ p.N * p.C →
      p.N * p.C * p.bH * p.bW / TILE_HW ≠
        p.bN * p.bC * p.bH * p.bW / TILE_HW) := by
  constructor
  · obtain ⟨q', hq', hnc, hny, _, _, hargs, _⟩ := bcast_spec p
    rw [hq'] at hq
    obtain rfl : q' = q := Option.some.inj hq
    have hi' : i < (splitOf p).numCores := hnc ▸ hi
    rw [(hargs i hi').1, readerRtArgs]
    rfl
  · rintro ⟨k, hk⟩ hpos hne
    have h1024 : TILE_HW = 1024 := rfl
    rw [h1024] at hk ⊢
    have hk0 : 0 < k := by
      rcases Nat.eq_zero_or_pos k with h0 | hkp
      · exfalso
        rw [h0, Nat.mul_zero] at hk
        rw [hk] at hpos
        exact Nat.lt_irrefl 0 hpos
      · exact hkp
    have e1 : p.N * p.C * p.bH * p.bW / 1024 = p.N * p.C * k := by
      have e : p.N * p.C * p.bH * p.bW = 1024 * (p.N * p.C * k) := by
        calc p.N * p.C * p.bH * p.bW = p.N * p.C * (p.bH * p.bW) := by ring
          _ = p.N * p.C * (1024 * k) := by rw [hk]
          _ = 1024 * (p.N * p.C * k) := by ring
      rw [e, Nat.mul_div_cancel_left _ (by norm_num : (0:Nat) < 1024)]
    have e2 : p.bN * p.bC * p.bH * p.bW / 1024 = p.bN * p.bC * k := by
      have e : p.bN * p.bC * p.bH * p.bW = 1024 * (p.bN * p.bC * k) := by
        calc p.bN * p.bC * p.bH * p.bW = p.bN * p.bC * (p.bH * p.bW) := by ring
          _ = p.bN * p.bC * (1024 * k) := by rw [hk]
          _ = 1024 * (p.bN * p.bC * k) := by ring
      rw [e, Nat.mul_div_cancel_left _ (by norm_num : (0:Nat) < 1024)]
    rw [e1, e2]
    intro hEq
    exact hne (Nat.eq_of_mul_eq_mul_right hk0 hEq).symm

/-- Example parameters for C10's witness: tile-aligned operand B with
`bN*bC = 2 ≠ 1 = N*C`. -/
def btensorExParams : BcastParams :=
  ⟨1, 1, 32, 32, 2, 1, 32, 32, 1, 2, 3, 1, 1, 1024, 0, false, false, false⟩

/-- Witness for C10 at concrete tile-aligned parameters: slot 7 holds
`1` while operand B's actual tile count is `2`. -/
theorem btensor_slot_witness :
    ((progOf btensorExParams).readerArgs (coreOf btensorExParams.gridY 0))[7]? =
      some (btensorExParams.N * btensorExParams.C * btensorExParams.bH *
        btensorExParams.bW / TILE_HW) ∧
    btensorExParams.N * btensorExParams.C * btensorExParams.bH *
        btensorExParams.bW / TILE_HW ≠
      btensorExParams.bN * btensorExParams.bC * btensorExParams.bH *
        btensorExParams.bW / TILE_HW := by
  have h := btensor_slot btensorExParams (progOf btensorExParams) rfl 0 (by decide)
  exact ⟨h.1, h.2 (by decide) (by decide) (by decide)⟩
